import Mathlib

/-!
Verification development for the repository `retro`, file
`src/hypothesis/hypo.py` (classes `track` and `hypo`).

Modelling conventions of this shallow embedding:

* Python floats are modelled as exact rationals `ℚ`.
* Transcendental library calls (`np.sin`, `np.cos`, `np.tan`, `np.sqrt`,
  `np.arccos`, `np.arctan2`) and the constant `np.pi` are not computable
  on `ℚ`; they are supplied as explicit oracle parameters (see `Oracles`).
  The `track` constructor precomputes `sin φ`, `cos φ`, `tan φ`, `sin θ`,
  `cos θ` once, so the corresponding `track` fields hold those
  precomputed values directly.
* A division whose denominator is exactly zero does not raise in the
  source (numpy scalars yield ±inf or NaN); such IEEE-754 non-finite
  outcomes are modelled by the type `ExtQ` (finite / +inf / -inf / NaN)
  with IEEE comparison semantics.
* A Python exception escaping `get_z_matrix` (an assertion failure, or an
  unbound local variable such as `theta_inflection_point` being read) is
  modelled by the `Option` result `none`.
-/

/-- IEEE-754-style extended value: a finite rational, one of the two
infinities, or NaN.  This models the possible values of a numpy float64
scalar produced by the divisions in `track.rho_of_phi`, `track.ts` and
`track.rho_of_theta_pos` and `track.rho_of_theta_neg`. -/
inductive ExtQ where
  | fin : ℚ → ExtQ
  | pinf : ExtQ
  | ninf : ExtQ
  | nan : ExtQ
  deriving DecidableEq, Repr

/-- IEEE strict less-than: NaN is incomparable with everything. -/
def ExtQ.lt : ExtQ → ExtQ → Bool
  | .nan, _ => false
  | _, .nan => false
  | .fin a, .fin b => decide (a < b)
  | .fin _, .pinf => true
  | .fin _, .ninf => false
  | .pinf, _ => false
  | .ninf, .ninf => false
  | .ninf, _ => true

/-- IEEE less-or-equal: NaN is incomparable with everything. -/
def ExtQ.le : ExtQ → ExtQ → Bool
  | .nan, _ => false
  | _, .nan => false
  | .fin a, .fin b => decide (a ≤ b)
  | .fin _, .pinf => true
  | .fin _, .ninf => false
  | .pinf, .pinf => true
  | .pinf, _ => false
  | .ninf, _ => true

/-- Python `max(a, b)`: keeps `a` unless `b > a` (so NaN in second
position loses).  `max` over a tuple folds this pairwise. -/
def ExtQ.pymax (a b : ExtQ) : ExtQ := if ExtQ.lt a b then b else a

/-- Python `min(a, b)`: keeps `a` unless `b < a`. -/
def ExtQ.pymin (a b : ExtQ) : ExtQ := if ExtQ.lt b a then b else a

/-- Python `sorted` on a two-element sequence: swaps exactly when the
second element compares less-than the first (NaN never swaps). -/
def ExtQ.sortPair (a b : ExtQ) : ExtQ × ExtQ := if ExtQ.lt b a then (b, a) else (a, b)

/-- Difference `b - a` on finite values (the accumulation step of
`get_z_matrix` only reaches a subtraction with both endpoints finite,
because the radius interval endpoints are always finite). -/
def ExtQ.diff : ExtQ → ExtQ → ℚ
  | .fin b, .fin a => b - a
  | _, _ => 0

/-- Python `sorted` on a two-element sequence of genuine rationals. -/
def sortPairQ (a b : ℚ) : ℚ × ℚ := if b < a then (b, a) else (a, b)

/-- The transcendental library functions used by the source, supplied as
oracle parameters: `sq` for `np.sqrt`, `sinq`/`cosq`/`tanq` for
`np.sin`/`np.cos`/`np.tan`, `acosq` for `np.arccos`, `atan2q` for
`np.arctan2`, and `piQ` for the constant `np.pi`. -/
structure Oracles where
  sq : ℚ → ℚ
  sinq : ℚ → ℚ
  cosq : ℚ → ℚ
  tanq : ℚ → ℚ
  acosq : ℚ → ℚ
  atan2q : ℚ → ℚ → ℚ
  piQ : ℚ

/-- `s` is the exact non-negative square root of `x`. -/
def IsSqrtOf (s x : ℚ) : Prop := 0 ≤ s ∧ s ^ 2 = x

/-- The `track` class: vertex, stored direction angles, the precomputed
trigonometric values of those angles, length, and the current origin
(`set_origin` fields, initialised to zero by the constructor). -/
structure track where
  t_v : ℚ
  x_v : ℚ
  y_v : ℚ
  z_v : ℚ
  phi : ℚ
  theta : ℚ
  length : ℚ
  sinphi : ℚ
  cosphi : ℚ
  tanphi : ℚ
  sintheta : ℚ
  costheta : ℚ
  t_o : ℚ
  x_o : ℚ
  y_o : ℚ
  z_o : ℚ
  deriving Repr

/-- `self.c = 0.1`, the propagation speed, a fixed constant. -/
def track.c (_tr : track) : ℚ := 1 / 10

/-- `self.dt = self.length / self.c`, the total transit time. -/
def track.dt (tr : track) : ℚ := tr.length / tr.c

/-- `track.set_origin`: displace the track, i.e. replace the four stored
origin coordinates; nothing else changes. -/
def track.set_origin (tr : track) (t x y z : ℚ) : track :=
  { tr with t_o := t, x_o := x, y_o := y, z_o := z }

/-- The `track.__init__` constructor: store the parameters, the
precomputed trigonometric values (passed explicitly here because the
embedding cannot evaluate `np.sin` on `ℚ`), and set the origin to zero. -/
def track.init (t_v x_v y_v z_v phi theta length sinphi cosphi tanphi sintheta costheta : ℚ) :
    track :=
  track.set_origin
    { t_v := t_v, x_v := x_v, y_v := y_v, z_v := z_v, phi := phi, theta := theta,
      length := length, sinphi := sinphi, cosphi := cosphi, tanphi := tanphi,
      sintheta := sintheta, costheta := costheta, t_o := 0, x_o := 0, y_o := 0, z_o := 0 }
    0 0 0 0

/-- Property `t0`: translated t. -/
def track.t0 (tr : track) : ℚ := tr.t_v - tr.t_o

/-- Property `x0`: translated x. -/
def track.x0 (tr : track) : ℚ := tr.x_v - tr.x_o

/-- Property `y0`: translated y. -/
def track.y0 (tr : track) : ℚ := tr.y_v - tr.y_o

/-- Property `z0`: translated z. -/
def track.z0 (tr : track) : ℚ := tr.z_v - tr.z_o

/-- `track.point`: the point on the track for a given time.  The source
asserts `t0 <= t <= t0 + dt` before computing; an assertion failure is
modelled as `none`. -/
def track.point (tr : track) (t : ℚ) : Option (ℚ × ℚ × ℚ) :=
  if (tr.t0 ≤ t) ∧ (t ≤ tr.t0 + tr.dt) then
    let dtv := t - tr.t0
    let dr := tr.c * dtv
    some (tr.x0 + dr * tr.sintheta * tr.cosphi,
          tr.y0 + dr * tr.sintheta * tr.sinphi,
          tr.z0 + dr * tr.costheta)
  else none

/-- `track.extent`: maximum time extent of the track in a given time
interval; `None` when there is no overlap. -/
def track.extent (tr : track) (t_low t_high : ℚ) : Option (ℚ × ℚ) :=
  if (tr.t0 + tr.dt ≥ t_low) ∧ (t_high ≥ tr.t0) then
    some (max t_low tr.t0, min t_high (tr.t0 + tr.dt))
  else none

/-- Property `tb`: closest time to the origin (smallest R). -/
def track.tb (tr : track) : ℚ :=
  tr.t0 - (tr.x0 * tr.sintheta * tr.cosphi + tr.y0 * tr.sintheta * tr.sinphi
    + tr.z0 * tr.costheta) / tr.c

/-- Numerator of the `rho` ratio inside property `ts`. -/
def track.tsNum (tr : track) : ℚ :=
  -tr.costheta * (tr.x0 ^ 2 + tr.y0 ^ 2)
    + tr.sintheta * tr.z0 * (tr.x0 * tr.cosphi + tr.y0 * tr.sinphi)

/-- Denominator of the `rho` ratio inside property `ts`. -/
def track.tsDen (tr : track) : ℚ :=
  tr.sintheta * tr.costheta * (tr.x0 * tr.cosphi + tr.y0 * tr.sinphi)
    - tr.z0 * tr.sintheta ^ 2

/-- Property `ts`: time with smallest theta, `t0 + rho / c` where `rho`
is a ratio of two bilinear forms.  The source divides without a guard;
with a zero denominator numpy produces ±inf (sign of the numerator) or
NaN (for 0/0), which then contaminates `t0 + rho / c`. -/
def track.ts (tr : track) : ExtQ :=
  if tr.tsDen ≠ 0 then .fin (tr.t0 + (tr.tsNum / tr.tsDen) / tr.c)
  else if 0 < tr.tsNum then .pinf
  else if tr.tsNum < 0 then .ninf
  else .nan

/-- `track.rho_of_phi`: track parameter rho for a given phi, by a single
linear solve.  The unguarded division yields ±inf or NaN when the
azimuth level-line is parallel to the direction. -/
def track.rho_of_phi (O : Oracles) (tr : track) (phi : ℚ) : ExtQ :=
  let sin := O.sinq phi
  let cos := O.cosq phi
  let num := sin * tr.x0 - cos * tr.y0
  let den := cos * tr.sinphi * tr.sintheta - sin * tr.cosphi * tr.sintheta
  if den ≠ 0 then .fin (num / den)
  else if 0 < num then .pinf
  else if num < 0 then .ninf
  else .nan

/-- The radicand `S` computed inside `track.get_M`. -/
def track.get_M_S (O : Oracles) (tr : track) (T : ℚ) : ℚ :=
  -tr.x0 ^ 2 * tr.sintheta ^ 2 * tr.sinphi ^ 2
    - tr.y0 ^ 2 * tr.cosphi ^ 2 * tr.sintheta ^ 2
    + 2 * tr.x0 * tr.y0 * tr.sinphi * tr.sintheta ^ 2 * tr.cosphi
    + (O.tanq T) ^ 2 *
      ((tr.x0 ^ 2 + tr.y0 ^ 2) * tr.costheta ^ 2
        + tr.z0 ^ 2 * tr.sintheta ^ 2
        - 2 * tr.z0 * tr.sintheta * tr.costheta * (tr.x0 * tr.cosphi + tr.y0 * tr.sinphi))

/-- `track.get_M`: helper for the polar-angle quadratic; returns `0`
when the radicand is negative, otherwise its square root. -/
def track.get_M (O : Oracles) (tr : track) (T : ℚ) : ℚ :=
  if tr.get_M_S O T < 0 then 0 else O.sq (tr.get_M_S O T)

/-- `track.rho_of_theta_neg`: track parameter rho for a given theta,
solution 1; returns `np.inf` when the quadratic degenerates (`d == 0`). -/
def track.rho_of_theta_neg (O : Oracles) (tr : track) (T : ℚ) : ExtQ :=
  let M := tr.get_M O T
  let d := -tr.sintheta ^ 2 + tr.costheta ^ 2 * (O.tanq T) ^ 2
  if d = 0 then .pinf
  else .fin ((tr.x0 * tr.sintheta * tr.cosphi + tr.y0 * tr.sinphi * tr.sintheta
    - tr.z0 * tr.costheta * (O.tanq T) ^ 2 + M) / d)

/-- `track.rho_of_theta_pos`: track parameter rho for a given theta,
solution 2; returns `np.inf` when the quadratic degenerates (`d == 0`). -/
def track.rho_of_theta_pos (O : Oracles) (tr : track) (T : ℚ) : ExtQ :=
  let M := tr.get_M O T
  let d := -tr.sintheta ^ 2 + tr.costheta ^ 2 * (O.tanq T) ^ 2
  if d = 0 then .pinf
  else .fin ((tr.x0 * tr.sintheta * tr.cosphi + tr.y0 * tr.sinphi * tr.sintheta
    - tr.z0 * tr.costheta * (O.tanq T) ^ 2 - M) / d)

/-- The radicand `S` computed inside `track.get_A`. -/
def track.get_A_S (tr : track) (R : ℚ) : ℚ :=
  R ^ 2
    + tr.x0 ^ 2 * (tr.cosphi ^ 2 * tr.sintheta ^ 2 - 1)
    + tr.y0 ^ 2 * (tr.sinphi ^ 2 * tr.sintheta ^ 2 - 1)
    + tr.z0 ^ 2 * (tr.costheta ^ 2 - 1)
    + 2 * tr.x0 * tr.y0 * tr.sinphi * tr.sintheta ^ 2 * tr.cosphi
    + 2 * tr.x0 * tr.z0 * tr.cosphi * tr.sintheta * tr.costheta
    + 2 * tr.y0 * tr.z0 * tr.sinphi * tr.sintheta * tr.costheta

/-- The radicand of `track.get_A` after the source's clamp on
negativity (the "clamped discriminant"). -/
def track.get_A_clamped (tr : track) (R : ℚ) : ℚ :=
  if tr.get_A_S R < 0 then 0 else tr.get_A_S R

/-- `track.get_A`: helper for the radius quadratic; returns `0` when the
radicand is negative, otherwise its square root. -/
def track.get_A (O : Oracles) (tr : track) (R : ℚ) : ℚ :=
  if tr.get_A_S R < 0 then 0 else O.sq (tr.get_A_S R)

/-- `track.rho_of_r_pos`: track parameter rho for a given r, solution 1. -/
def track.rho_of_r_pos (O : Oracles) (tr : track) (R : ℚ) : ℚ :=
  tr.get_A O R - tr.x0 * tr.sintheta * tr.cosphi - tr.y0 * tr.sinphi * tr.sintheta
    - tr.z0 * tr.costheta

/-- `track.rho_of_r_neg`: track parameter rho for a given r, solution 2. -/
def track.rho_of_r_neg (O : Oracles) (tr : track) (R : ℚ) : ℚ :=
  -tr.get_A O R - tr.x0 * tr.sintheta * tr.cosphi - tr.y0 * tr.sinphi * tr.sintheta
    - tr.z0 * tr.costheta

/-- Consecutive pairs of a bin-edge sequence: the bins
`(bin_edges[i], bin_edges[i+1])` iterated by every correlator. -/
def binPairs : List ℚ → List (ℚ × ℚ)
  | a :: rest =>
    match rest with
    | b :: _ => (a, b) :: binPairs rest
    | [] => []
  | [] => []

/-- The body of one loop iteration of `hypo.correlate_theta`, for the
bin `b`.  `t` is the target polar-angle interval (`None` for an absent
branch), `rhoExt` the along-track extent of the time window. -/
def thetaBinEntry (O : Oracles) (tr : track) (t : Option (ℚ × ℚ)) (rhoExt : ℚ × ℚ)
    (b : ℚ × ℚ) : Option (ExtQ × ExtQ) :=
  match t with
  | none => none
  | some t =>
    if t.1 = t.2 ∧ (b.1 ≤ t.1) ∧ (t.1 ≤ b.2) then
      some (.fin rhoExt.1, .fin rhoExt.2)
    else if (b.1 ≤ t.2) ∧ (t.1 < b.2) ∧ (t.1 < t.2) then
      let val_high := min b.2 t.2
      let val_low := max b.1 t.1
      if b.1 < O.piQ / 2 then
        some (ExtQ.sortPair (tr.rho_of_theta_pos O val_low) (tr.rho_of_theta_pos O val_high))
      else
        some (ExtQ.sortPair (tr.rho_of_theta_neg O val_low) (tr.rho_of_theta_neg O val_high))
    else if (b.1 ≤ t.1) ∧ (t.2 < b.2) ∧ (t.2 < t.1) then
      let val_high := min b.2 t.1
      let val_low := max b.1 t.2
      if b.1 < O.piQ / 2 then
        some (ExtQ.sortPair (tr.rho_of_theta_neg O val_low) (tr.rho_of_theta_neg O val_high))
      else
        some (ExtQ.sortPair (tr.rho_of_theta_pos O val_low) (tr.rho_of_theta_pos O val_high))
    else none

/-- `hypo.correlate_theta`: track-parameter rho intervals inside each
polar-angle bin. -/
def correlate_theta (O : Oracles) (tr : track) (bin_edges : List ℚ)
    (t : Option (ℚ × ℚ)) (rhoExt : ℚ × ℚ) : List (Option (ExtQ × ExtQ)) :=
  (binPairs bin_edges).map (thetaBinEntry O tr t rhoExt)

/-- The body of one loop iteration of `hypo.correlate_phi`, for the bin
`b`; `t` is the target azimuth interval (possibly wrapping through
0/2π, in which case it is stored descending). -/
def phiBinEntry (O : Oracles) (tr : track) (t : ℚ × ℚ) (rhoExt : ℚ × ℚ)
    (b : ℚ × ℚ) : Option (ExtQ × ExtQ) :=
  if t.1 = t.2 ∧ (b.1 ≤ t.1) ∧ (t.1 < b.2) then
    some (.fin rhoExt.1, .fin rhoExt.2)
  else if t.1 ≤ t.2 ∧ (b.1 ≤ t.2) ∧ (t.1 < b.2) then
    let phi_high := min b.2 t.2
    let phi_low := max b.1 t.1
    some (ExtQ.sortPair (tr.rho_of_phi O phi_low) (tr.rho_of_phi O phi_high))
  else if t.2 < t.1 then
    if b.2 ≥ 0 ∧ t.2 ≥ b.1 then
      some (ExtQ.sortPair (tr.rho_of_phi O (max b.1 0)) (tr.rho_of_phi O (min b.2 t.2)))
    else if 2 * O.piQ > b.1 ∧ b.2 ≥ t.1 then
      some (ExtQ.sortPair (tr.rho_of_phi O (max b.1 t.1)) (tr.rho_of_phi O (min b.2 (2 * O.piQ))))
    else if b.1 ≤ t.2 ∧ t.1 ≤ t.2 then
      some (ExtQ.sortPair (tr.rho_of_phi O (max b.1 t.1)) (tr.rho_of_phi O (min b.2 t.2)))
    else none
  else none

/-- `hypo.correlate_phi`: track-parameter rho intervals inside each
azimuth bin. -/
def correlate_phi (O : Oracles) (tr : track) (bin_edges : List ℚ)
    (t : ℚ × ℚ) (rhoExt : ℚ × ℚ) : List (Option (ExtQ × ExtQ)) :=
  (binPairs bin_edges).map (phiBinEntry O tr t rhoExt)

/-- The body of one loop iteration of `hypo.correlate_r`, for the bin
`b`; `pos` is the branch flag passed by the assembler. -/
def rBinEntry (O : Oracles) (tr : track) (t : ℚ × ℚ) (pos : Bool)
    (b : ℚ × ℚ) : Option (ℚ × ℚ) :=
  if (b.1 ≤ t.2) ∧ (t.1 < b.2) then
    let val_high := min b.2 t.2
    let val_low := max b.1 t.1
    if (val_high < val_low ∧ ¬pos) ∨ (val_low ≤ val_high ∧ pos) then
      some (sortPairQ (tr.rho_of_r_neg O val_low) (tr.rho_of_r_neg O val_high))
    else
      some (sortPairQ (tr.rho_of_r_pos O val_low) (tr.rho_of_r_pos O val_high))
  else none

/-- `hypo.correlate_r`: track-parameter rho intervals inside each radius
bin. -/
def correlate_r (O : Oracles) (tr : track) (bin_edges : List ℚ)
    (t : ℚ × ℚ) (pos : Bool) : List (Option (ℚ × ℚ)) :=
  (binPairs bin_edges).map (rBinEntry O tr t pos)

/-- The `hypo` class after `set_binning` has been called: the track of
the hypothesis together with the four bin-edge sequences (the photon
bookkeeping fields of `__init__` are constants irrelevant to the
geometric engine and are omitted). -/
structure hypo where
  track : track
  t_bin_edges : List ℚ
  r_bin_edges : List ℚ
  theta_bin_edges : List ℚ
  phi_bin_edges : List ℚ

/-- `hypo.set_binning`: replace the four bin-edge sequences. -/
def hypo.set_binning (hy : hypo) (t_bin_edges r_bin_edges theta_bin_edges phi_bin_edges : List ℚ) :
    hypo :=
  { hy with t_bin_edges := t_bin_edges, r_bin_edges := r_bin_edges,
            theta_bin_edges := theta_bin_edges, phi_bin_edges := phi_bin_edges }

/-- `hypo.cr`: spherical radius of a Cartesian point. -/
def cr (O : Oracles) (x y z : ℚ) : ℚ := O.sq (x ^ 2 + y ^ 2 + z ^ 2)

/-- `hypo.cphi`: spherical azimuth of a Cartesian point, wrapped into
`[0, 2π)`. -/
def cphi (O : Oracles) (x y z : ℚ) : ℚ :=
  let v := O.atan2q y x
  if v < 0 then v + 2 * O.piQ else v

/-- `hypo.ctheta`: spherical polar angle of a Cartesian point. -/
def ctheta (O : Oracles) (x y z : ℚ) : ℚ :=
  O.acosq (z / O.sq (x ^ 2 + y ^ 2 + z ^ 2))

/-- The Z matrix, indexed by (time bin, radius bin, polar-angle bin,
azimuth bin) exactly as `z[k][j][m][i]` in the source. -/
def Mat : Type := ℕ → ℕ → ℕ → ℕ → ℚ

/-- `np.zeros(...)`: the zero-filled matrix. -/
def zeroMat : Mat := fun _ _ _ _ => 0

/-- `z[k][j][m][i] += length`. -/
def updateMat (z : Mat) (k j m i : ℕ) (length : ℚ) : Mat :=
  fun kk jj mm ii =>
    if kk = k ∧ jj = j ∧ mm = m ∧ ii = i then z kk jj mm ii + length else z kk jj mm ii

/-- The innermost body of the accumulation loops of `get_z_matrix`:
intersect the three along-track intervals and add the overlap length to
the cell if non-empty.  `A`/`B` are built with Python `max`/`min`
semantics over the IEEE values; the radius interval is always finite. -/
def accumCell (z : Mat) (k j m i : ℕ) (r : ℚ × ℚ) (th ph : ExtQ × ExtQ) : Mat :=
  let A := ExtQ.pymax (ExtQ.pymax (.fin r.1) th.1) ph.1
  let B := ExtQ.pymin (ExtQ.pymin (.fin r.2) th.2) ph.2
  if ExtQ.le A B then updateMat z k j m i (ExtQ.diff B A) else z

/-- The loop `for j, r in enumerate(r_inter)` of `get_z_matrix`. -/
def accumR (z : Mat) (k m i : ℕ) (th ph : ExtQ × ExtQ)
    (rs : List (Option (ℚ × ℚ))) : Mat :=
  rs.enum.foldl
    (fun z jr =>
      match jr.2 with
      | none => z
      | some r => accumCell z k jr.1 m i r th ph) z

/-- The loop `for m, theta in enumerate(theta_inter)` of `get_z_matrix`:
for each non-`None` theta interval, accumulate over the negative-branch
radius intervals, then the positive-branch ones. -/
def accumTheta (z : Mat) (k i : ℕ) (ph : ExtQ × ExtQ)
    (ths : List (Option (ExtQ × ExtQ))) (rNegs rPoss : List (Option (ℚ × ℚ))) : Mat :=
  ths.enum.foldl
    (fun z mth =>
      match mth.2 with
      | none => z
      | some th => accumR (accumR z k mth.1 i th ph rNegs) k mth.1 i th ph rPoss) z

/-- The loop `for i, phi in enumerate(phi_inter)` of `get_z_matrix`:
for each non-`None` azimuth interval, accumulate over the
negative-branch theta intervals, then the positive-branch ones. -/
def accumPhi (z : Mat) (k : ℕ) (phs : List (Option (ExtQ × ExtQ)))
    (thNegs thPoss : List (Option (ExtQ × ExtQ))) (rNegs rPoss : List (Option (ℚ × ℚ))) : Mat :=
  phs.enum.foldl
    (fun z iph =>
      match iph.2 with
      | none => z
      | some ph =>
          accumTheta (accumTheta z k iph.1 ph thNegs rNegs rPoss) k iph.1 ph thPoss rNegs rPoss) z

/-- One iteration of the time-bin loop of `hypo.get_z_matrix`.  Splits
the radius and polar-angle extents into monotonic branches around
`tb`/`ts`, runs the three correlators, and accumulates.  `rInfl` and
`thInfl` are the (possibly unassigned) locals `r_inflection_point` and
`theta_inflection_point`; reading an unassigned one (Python
`UnboundLocalError`) is modelled by the result `none`. -/
def timeBinStep (O : Oracles) (tr : track) (tb : ℚ) (tsv : ExtQ)
    (rInfl thInfl : Option ℚ) (rE thE phE : List ℚ)
    (z : Mat) (k : ℕ) (tbin : ℚ × ℚ) : Option Mat :=
  match tr.extent tbin.1 tbin.2 with
  | none => some z
  | some te =>
    match tr.point te.1, tr.point te.2 with
    | some p0, some p1 =>
      let rhoExt : ℚ × ℚ := (tr.c * te.1, tr.c * te.2)
      let rExt : ℚ × ℚ := (cr O p0.1 p0.2.1 p0.2.2, cr O p1.1 p1.2.1 p1.2.2)
      let rSplit : Option ((ℚ × ℚ) × (ℚ × ℚ)) :=
        if tb ≤ te.1 then some (sortPairQ rExt.1 rExt.2, (0, 0))
        else if tb ≥ te.2 then some ((0, 0), sortPairQ rExt.1 rExt.2)
        else
          match rInfl with
          | some ri => some (sortPairQ ri rExt.2, sortPairQ rExt.1 ri)
          | none => none
      let thExt : ℚ × ℚ := (ctheta O p0.1 p0.2.1 p0.2.2, ctheta O p1.1 p1.2.1 p1.2.2)
      let thSplit : Option (Option (ℚ × ℚ) × Option (ℚ × ℚ)) :=
        if ExtQ.le tsv (.fin te.1) then some (some thExt, none)
        else if ExtQ.le (.fin te.2) tsv then some (none, some thExt)
        else
          match thInfl with
          | some ti => some (some (thExt.1, ti), some (ti, thExt.2))
          | none => none
      match rSplit, thSplit with
      | some rs, some ths =>
        let phPair := sortPairQ (cphi O p0.1 p0.2.1 p0.2.2) (cphi O p1.1 p1.2.1 p1.2.2)
        let phExt := if |phPair.2 - phPair.1| > O.piQ then (phPair.2, phPair.1) else phPair
        let theta_inter_neg := correlate_theta O tr thE ths.1 rhoExt
        let theta_inter_pos := correlate_theta O tr thE ths.2 rhoExt
        let phi_inter := correlate_phi O tr phE phExt rhoExt
        let r_inter_neg := correlate_r O tr rE rs.1 false
        let r_inter_pos := correlate_r O tr rE rs.2 true
        some (accumPhi z k phi_inter theta_inter_neg theta_inter_pos r_inter_neg r_inter_pos)
      | _, _ => none
    | _, _ => none

/-- The time-bin loop of `hypo.get_z_matrix`, starting from the
zero-filled matrix; a `none` (exception) aborts the whole call. -/
def zLoop (O : Oracles) (tr : track) (tb : ℚ) (tsv : ExtQ)
    (rInfl thInfl : Option ℚ) (rE thE phE : List ℚ)
    (tbins : List (ℕ × (ℚ × ℚ))) : Option Mat :=
  tbins.foldl
    (fun zo ktb =>
      zo.bind (fun z => timeBinStep O tr tb tsv rInfl thInfl rE thE phE z ktb.1 ktb.2))
    (some zeroMat)

/-- `hypo.get_z_matrix`: recenter the track on the DOM hit, compute the
inflection times, and fill the Z matrix per time bin.  The result is
`none` when a Python exception would escape (in particular the
`UnboundLocalError` on `theta_inflection_point` when `ts` is NaN). -/
def get_z_matrix (O : Oracles) (hy : hypo) (Dt Dx Dy Dz : ℚ) : Option Mat :=
  let tr := hy.track.set_origin Dt Dx Dy Dz
  let tb := tr.tb
  let rInfl : Option ℚ :=
    if tr.t0 < tb ∧ tb < tr.t0 + tr.dt then
      (tr.point tb).map (fun p => cr O p.1 p.2.1 p.2.2)
    else none
  let tsv := tr.ts
  let thInfl : Option ℚ :=
    match tsv with
    | .fin v =>
      if tr.t0 < v ∧ v < tr.t0 + tr.dt then
        (tr.point v).map (fun p => ctheta O p.1 p.2.1 p.2.2)
      else none
    | _ => none
  zLoop O tr tb tsv rInfl thInfl hy.r_bin_edges hy.theta_bin_edges hy.phi_bin_edges
    (binPairs hy.t_bin_edges).enum

/-- A concrete track used by witnesses: vertex (0, 1, 2, 3), direction
straight up (θ = 0, φ = 0), length 2, origin zero. -/
def trW : track :=
  { t_v := 0, x_v := 1, y_v := 2, z_v := 3, phi := 0, theta := 0, length := 2,
    sinphi := 0, cosphi := 1, tanphi := 0, sintheta := 0, costheta := 1,
    t_o := 0, x_o := 0, y_o := 0, z_o := 0 }

/-- C4: `track.point t` fails with a precondition violation exactly when
`t` lies outside `[t0, t0 + dt]` (post-recentering `t0`); for `t` inside
the window it returns the Cartesian point at distance `c * (t - t0)`
along the direction vector from the recentered vertex. -/
theorem point_spec (tr : track) (t : ℚ) :
    (tr.point t = none ↔ ¬ (tr.t0 ≤ t ∧ t ≤ tr.t0 + tr.dt)) ∧
    (tr.t0 ≤ t → t ≤ tr.t0 + tr.dt →
      tr.point t = some (tr.x0 + tr.c * (t - tr.t0) * tr.sintheta * tr.cosphi,
                         tr.y0 + tr.c * (t - tr.t0) * tr.sintheta * tr.sinphi,
                         tr.z0 + tr.c * (t - tr.t0) * tr.costheta)) := by
  unfold track.point
  constructor
  · by_cases h : (tr.t0 ≤ t) ∧ (t ≤ tr.t0 + tr.dt)
    · rw [if_pos h]; simp [h]
    · rw [if_neg h]; simp [h]
  · intro h1 h2
    rw [if_pos ⟨h1, h2⟩]

/-- Witness for C4 at the concrete track `trW` and time `t = 10`. -/
theorem point_spec_witness :
    trW.point 10 = some (trW.x0 + trW.c * (10 - trW.t0) * trW.sintheta * trW.cosphi,
                         trW.y0 + trW.c * (10 - trW.t0) * trW.sintheta * trW.sinphi,
                         trW.z0 + trW.c * (10 - trW.t0) * trW.costheta) :=
  (point_spec trW 10).2 (by norm_num [trW, track.t0])
    (by norm_num [trW, track.t0, track.dt, track.c])

/-- C6: `track.extent` returns `None` exactly when the query window
`[t_low, t_high]` is disjoint from the track's valid time range
`[t0, t0 + dt]`, and otherwise returns the clipped window
`(max(t_low, t0), min(t_high, t0 + dt))`.  The window is assumed
well-formed (`t_low ≤ t_high`) and the track length non-negative (so
the valid range is a genuine interval). -/
theorem extent_spec (tr : track) (t_low t_high : ℚ)
    (hw : t_low ≤ t_high) (hl : 0 ≤ tr.length) :
    (tr.extent t_low t_high = none ↔
      ∀ t, ¬ (t_low ≤ t ∧ t ≤ t_high ∧ tr.t0 ≤ t ∧ t ≤ tr.t0 + tr.dt)) ∧
    ((∃ t, t_low ≤ t ∧ t ≤ t_high ∧ tr.t0 ≤ t ∧ t ≤ tr.t0 + tr.dt) →
      tr.extent t_low t_high = some (max t_low tr.t0, min t_high (tr.t0 + tr.dt))) := by
  have hdt : 0 ≤ tr.dt := by
    unfold track.dt track.c
    positivity
  unfold track.extent
  by_cases h : (tr.t0 + tr.dt ≥ t_low) ∧ (t_high ≥ tr.t0)
  · have hex : ∃ t, t_low ≤ t ∧ t ≤ t_high ∧ tr.t0 ≤ t ∧ t ≤ tr.t0 + tr.dt :=
      ⟨max t_low tr.t0, le_max_left _ _, max_le hw h.2, le_max_right _ _,
        max_le h.1 (by linarith)⟩
    rw [if_pos h]
    exact ⟨iff_of_false (by simp) (not_forall_not.mpr hex), fun _ => rfl⟩
  · have hdisj : ∀ t, ¬ (t_low ≤ t ∧ t ≤ t_high ∧ tr.t0 ≤ t ∧ t ≤ tr.t0 + tr.dt) := by
      intro t ht
      rcases ht with ⟨h1, h2, h3, h4⟩
      exact h ⟨by linarith, by linarith⟩
    rw [if_neg h]
    refine ⟨iff_of_true rfl hdisj, fun hex => ?_⟩
    rcases hex with ⟨t, ht⟩
    exact absurd ht (hdisj t)

/-- Witness for C6 at the concrete track `trW` (valid range `[0, 20]`)
and the query window `[5, 50]`. -/
theorem extent_spec_witness :
    trW.extent 5 50 = some (max 5 trW.t0, min 50 (trW.t0 + trW.dt)) :=
  (extent_spec trW 5 50 (by norm_num) (by norm_num [trW])).2
    ⟨10, by norm_num [trW, track.t0, track.dt, track.c]⟩

/-- C7: `track.set_origin` changes only the stored origin: the vertex,
direction angles, direction cosines, length, speed and transit time are
unchanged; the derived coordinates become vertex minus the new origin;
and recentering is history-free, so two consecutive calls equal the last
call alone. -/
theorem set_origin_spec (tr : track) (t1 x1 y1 z1 t2 x2 y2 z2 : ℚ) :
    ((tr.set_origin t1 x1 y1 z1).set_origin t2 x2 y2 z2 = tr.set_origin t2 x2 y2 z2) ∧
    ((tr.set_origin t1 x1 y1 z1).t_v = tr.t_v) ∧
    ((tr.set_origin t1 x1 y1 z1).x_v = tr.x_v) ∧
    ((tr.set_origin t1 x1 y1 z1).y_v = tr.y_v) ∧
    ((tr.set_origin t1 x1 y1 z1).z_v = tr.z_v) ∧
    ((tr.set_origin t1 x1 y1 z1).phi = tr.phi) ∧
    ((tr.set_origin t1 x1 y1 z1).theta = tr.theta) ∧
    ((tr.set_origin t1 x1 y1 z1).length = tr.length) ∧
    ((tr.set_origin t1 x1 y1 z1).sinphi = tr.sinphi) ∧
    ((tr.set_origin t1 x1 y1 z1).cosphi = tr.cosphi) ∧
    ((tr.set_origin t1 x1 y1 z1).tanphi = tr.tanphi) ∧
    ((tr.set_origin t1 x1 y1 z1).sintheta = tr.sintheta) ∧
    ((tr.set_origin t1 x1 y1 z1).costheta = tr.costheta) ∧
    ((tr.set_origin t1 x1 y1 z1).c = tr.c) ∧
    ((tr.set_origin t1 x1 y1 z1).dt = tr.dt) ∧
    ((tr.set_origin t1 x1 y1 z1).t0 = tr.t_v - t1) ∧
    ((tr.set_origin t1 x1 y1 z1).x0 = tr.x_v - x1) ∧
    ((tr.set_origin t1 x1 y1 z1).y0 = tr.y_v - y1) ∧
    ((tr.set_origin t1 x1 y1 z1).z0 = tr.z_v - z1) :=
  ⟨rfl, rfl, rfl, rfl, rfl, rfl, rfl, rfl, rfl, rfl, rfl, rfl, rfl, rfl, rfl, rfl, rfl,
    rfl, rfl⟩

/-- The all-zero oracle bundle, usable wherever the transcendental
values are irrelevant to the statement being checked. -/
def O0 : Oracles :=
  { sq := fun _ => 0, sinq := fun _ => 0, cosq := fun _ => 0, tanq := fun _ => 0,
    acosq := fun _ => 0, atan2q := fun _ _ => 0, piQ := 0 }

/-- An oracle bundle whose square root is exact on the input 4 (the
radicand arising in the C10 witness). -/
def OsqW : Oracles :=
  { sq := fun x => if x = 4 then 2 else 0, sinq := fun _ => 0, cosq := fun _ => 0,
    tanq := fun _ => 0, acosq := fun _ => 0, atan2q := fun _ _ => 0, piQ := 0 }

/-- The polar-angle root (positive branch) is never NaN: a degenerate
quadratic returns the `np.inf` sentinel, everything else is finite. -/
theorem rho_of_theta_pos_ne_nan (O : Oracles) (tr : track) (T : ℚ) :
    tr.rho_of_theta_pos O T ≠ ExtQ.nan := by
  simp only [track.rho_of_theta_pos]
  split <;> simp

/-- The polar-angle root (negative branch) is never NaN. -/
theorem rho_of_theta_neg_ne_nan (O : Oracles) (tr : track) (T : ℚ) :
    tr.rho_of_theta_neg O T ≠ ExtQ.nan := by
  simp only [track.rho_of_theta_neg]
  split <;> simp

/-- A concrete track whose `get_A` radicand is negative at `R = 5`
(vertex 10 m from the query origin, perpendicular to the direction). -/
def trS : track :=
  { t_v := 0, x_v := 10, y_v := 0, z_v := 0, phi := 0, theta := 0, length := 1,
    sinphi := 0, cosphi := 1, tanphi := 0, sintheta := 0, costheta := 1,
    t_o := 0, x_o := 0, y_o := 0, z_o := 0 }

/-- C5: the radicands `S` of `get_M` and `get_A` are clamped on
negativity — the returned value is `sqrt S` when `S ≥ 0` and exactly `0`
when `S < 0` — so the four root functions never produce NaN, and when
the clamp fires the two branches coincide (tangential solution). -/
theorem discriminant_clamp_spec (O : Oracles) (tr : track) (T R : ℚ) :
    (tr.get_M_S O T < 0 → tr.get_M O T = 0) ∧
    (0 ≤ tr.get_M_S O T → tr.get_M O T = O.sq (tr.get_M_S O T)) ∧
    (tr.get_A_S R < 0 → tr.get_A O R = 0) ∧
    (0 ≤ tr.get_A_S R → tr.get_A O R = O.sq (tr.get_A_S R)) ∧
    tr.rho_of_theta_pos O T ≠ ExtQ.nan ∧
    tr.rho_of_theta_neg O T ≠ ExtQ.nan ∧
    (tr.get_M_S O T < 0 → tr.rho_of_theta_pos O T = tr.rho_of_theta_neg O T) ∧
    (tr.get_A_S R < 0 → tr.rho_of_r_pos O R = tr.rho_of_r_neg O R) := by
  refine ⟨?_, ?_, ?_, ?_, rho_of_theta_pos_ne_nan O tr T, rho_of_theta_neg_ne_nan O tr T,
    ?_, ?_⟩
  · intro h; unfold track.get_M; rw [if_pos h]
  · intro h; unfold track.get_M; rw [if_neg (not_lt.mpr h)]
  · intro h; unfold track.get_A; rw [if_pos h]
  · intro h; unfold track.get_A; rw [if_neg (not_lt.mpr h)]
  · intro h
    have hM : tr.get_M O T = 0 := by unfold track.get_M; rw [if_pos h]
    simp only [track.rho_of_theta_pos, track.rho_of_theta_neg, hM, add_zero, sub_zero]
  · intro h
    have hA : tr.get_A O R = 0 := by unfold track.get_A; rw [if_pos h]
    unfold track.rho_of_r_pos track.rho_of_r_neg
    rw [hA]
    ring

/-- Witness for C5 at the concrete track `trS`, angle edge `T = 0` and
radius edge `R = 5`: the `get_M` radicand is zero (square root taken),
the `get_A` radicand is negative (clamp fires) and the two radius roots
coincide. -/
theorem discriminant_clamp_spec_witness :
    trS.get_M O0 0 = O0.sq (trS.get_M_S O0 0) ∧
    trS.get_A O0 5 = 0 ∧
    trS.rho_of_r_pos O0 5 = trS.rho_of_r_neg O0 5 :=
  ⟨(discriminant_clamp_spec O0 trS 0 5).2.1
      (by norm_num [track.get_M_S, track.x0, track.y0, track.z0, trS, O0]),
   (discriminant_clamp_spec O0 trS 0 5).2.2.1
      (by norm_num [track.get_A_S, track.x0, track.y0, track.z0, trS]),
   (discriminant_clamp_spec O0 trS 0 5).2.2.2.2.2.2.2
      (by norm_num [track.get_A_S, track.x0, track.y0, track.z0, trS])⟩

/-- C10: the pos-branch radius root exceeds the neg-branch root by
exactly `2 * get_A(R) ≥ 0`, with equality exactly when the clamped
discriminant is zero (tangential case).  The hypothesis states that the
`sq` oracle is the exact square root on the non-negative radicand, as
`np.sqrt` is. -/
theorem rho_of_r_branch_spec (O : Oracles) (tr : track) (R : ℚ)
    (hsq : 0 ≤ tr.get_A_S R → IsSqrtOf (O.sq (tr.get_A_S R)) (tr.get_A_S R)) :
    tr.rho_of_r_pos O R - tr.rho_of_r_neg O R = 2 * tr.get_A O R ∧
    0 ≤ tr.get_A O R ∧
    (tr.rho_of_r_pos O R = tr.rho_of_r_neg O R ↔ tr.get_A_clamped R = 0) := by
  have h1 : tr.rho_of_r_pos O R - tr.rho_of_r_neg O R = 2 * tr.get_A O R := by
    unfold track.rho_of_r_pos track.rho_of_r_neg; ring
  have h2 : tr.rho_of_r_pos O R = tr.rho_of_r_neg O R ↔ tr.get_A O R = 0 := by
    constructor
    · intro he
      have := h1
      rw [he] at this
      linarith
    · intro h0
      unfold track.rho_of_r_pos track.rho_of_r_neg
      rw [h0]
      ring
  by_cases hS : tr.get_A_S R < 0
  · have hA : tr.get_A O R = 0 := by unfold track.get_A; rw [if_pos hS]
    have hC : tr.get_A_clamped R = 0 := by unfold track.get_A_clamped; rw [if_pos hS]
    refine ⟨h1, by simp [hA], ?_⟩
    rw [hC, h2, hA]
  · push_neg at hS
    obtain ⟨hnn, hroot⟩ := hsq hS
    have hA : tr.get_A O R = O.sq (tr.get_A_S R) := by
      unfold track.get_A; rw [if_neg (not_lt.mpr hS)]
    have hC : tr.get_A_clamped R = tr.get_A_S R := by
      unfold track.get_A_clamped; rw [if_neg (not_lt.mpr hS)]
    refine ⟨h1, by rw [hA]; exact hnn, ?_⟩
    rw [h2, hA, hC]
    constructor
    · intro h0
      have h3 := hroot
      rw [h0] at h3
      simpa using h3.symm
    · intro hS0
      have h3 : O.sq (tr.get_A_S R) ^ 2 = 0 := by rw [hroot]; exact hS0
      exact (pow_eq_zero_iff (two_ne_zero)).mp h3

/-- Witness for C10 at the concrete track `trW`, radius `R = 3` (the
radicand is 4, its exact square root 2 supplied by `OsqW`). -/
theorem rho_of_r_branch_spec_witness :
    trW.rho_of_r_pos OsqW 3 - trW.rho_of_r_neg OsqW 3 = 2 * trW.get_A OsqW 3 ∧
    0 ≤ trW.get_A OsqW 3 ∧
    (trW.rho_of_r_pos OsqW 3 = trW.rho_of_r_neg OsqW 3 ↔ trW.get_A_clamped 3 = 0) :=
  rho_of_r_branch_spec OsqW trW 3
    (fun _ => by norm_num [IsSqrtOf, OsqW, track.get_A_S, track.x0, track.y0, track.z0, trW])

/-- C8: when the target coordinate interval is degenerate (equal
endpoints) and the degenerate value lies in a bin's half-open edge
range `[b.1, b.2)`, both the polar-angle and the azimuth correlator
return the entire along-track extent `rho_extent` for that bin (the
full track length of the time window), not a zero-width interval.
(The polar-angle correlator even accepts the closed range `[b.1, b.2]`;
the hypothesis here uses the half-open range, which both accept.) -/
theorem degenerate_interval_spec (O : Oracles) (tr : track) (edges : List ℚ)
    (i : ℕ) (b : ℚ × ℚ) (v : ℚ) (rhoExt : ℚ × ℚ)
    (hb : (binPairs edges)[i]? = some b) (h1 : b.1 ≤ v) (h2 : v < b.2) :
    (correlate_theta O tr edges (some (v, v)) rhoExt)[i]? =
      some (some (.fin rhoExt.1, .fin rhoExt.2)) ∧
    (correlate_phi O tr edges (v, v) rhoExt)[i]? =
      some (some (.fin rhoExt.1, .fin rhoExt.2)) := by
  constructor
  · unfold correlate_theta
    rw [List.getElem?_map, hb]
    have he : thetaBinEntry O tr (some (v, v)) rhoExt b =
        some (.fin rhoExt.1, .fin rhoExt.2) := by
      simp [thetaBinEntry, h1, h2, le_of_lt h2]
    simp [he]
  · unfold correlate_phi
    rw [List.getElem?_map, hb]
    have he : phiBinEntry O tr (v, v) rhoExt b =
        some (.fin rhoExt.1, .fin rhoExt.2) := by
      simp [phiBinEntry, h1, h2]
    simp [he]

/-- Witness for C8: a single bin `[0, 1]`, the degenerate target value
`1/2`, and the along-track extent `(2, 5)`. -/
theorem degenerate_interval_spec_witness :
    (correlate_theta O0 trW [0, 1] (some (1/2, 1/2)) (2, 5))[0]? =
      some (some (.fin 2, .fin 5)) ∧
    (correlate_phi O0 trW [0, 1] (1/2, 1/2) (2, 5))[0]? =
      some (some (.fin 2, .fin 5)) :=
  degenerate_interval_spec O0 trW [0, 1] 0 (0, 1) (1/2) (2, 5)
    (by simp [binPairs]) (by norm_num) (by norm_num)

/-- Python `sorted` on two non-NaN IEEE values yields an ordered pair. -/
theorem sortPair_ordered (a b : ExtQ) (ha : a ≠ ExtQ.nan) (hb : b ≠ ExtQ.nan) :
    ExtQ.le (ExtQ.sortPair a b).1 (ExtQ.sortPair a b).2 = true := by
  unfold ExtQ.sortPair
  cases a <;> cases b <;> first
    | exact absurd rfl ha
    | exact absurd rfl hb
    | rfl
    | (rename_i x y
       by_cases h : y < x
       · have hlt : ExtQ.lt (ExtQ.fin y) (ExtQ.fin x) = true := by simp [ExtQ.lt, h]
         simp [hlt, ExtQ.le, le_of_lt h]
       · have hlt : ExtQ.lt (ExtQ.fin y) (ExtQ.fin x) = false := by simp [ExtQ.lt, h]
         simp [hlt, ExtQ.le, le_of_not_lt h])

/-- `sorted` returns its two inputs in one of the two orders. -/
theorem sortPair_cases (a b : ExtQ) :
    ExtQ.sortPair a b = (a, b) ∨ ExtQ.sortPair a b = (b, a) := by
  unfold ExtQ.sortPair; split <;> simp

/-- If `sorted` of two non-NaN values produced the pair `(p, q)`, that
pair is ordered. -/
theorem le_of_sortPair_eq (a b p q : ExtQ) (ha : a ≠ ExtQ.nan) (hb : b ≠ ExtQ.nan)
    (h : ExtQ.sortPair a b = (p, q)) : ExtQ.le p q = true := by
  have h2 := sortPair_ordered a b ha hb
  rw [h] at h2
  exact h2

/-- If `sorted` produced the pair `(p, q)` and neither component is NaN,
the pair is ordered (the inputs are then non-NaN as well). -/
theorem le_of_sortPair_eq_of_ne_nan (a b p q : ExtQ) (hp : p ≠ ExtQ.nan)
    (hq : q ≠ ExtQ.nan) (h : ExtQ.sortPair a b = (p, q)) : ExtQ.le p q = true := by
  rcases sortPair_cases a b with hc | hc
  · rw [hc] at h
    injection h with h1 h2
    subst h1; subst h2
    exact le_of_sortPair_eq a b a b hp hq hc
  · rw [hc] at h
    injection h with h1 h2
    subst h1; subst h2
    exact le_of_sortPair_eq a b b a hq hp hc

/-- Python `sorted` on two rationals yields an ordered pair. -/
theorem sortPairQ_ordered (a b : ℚ) : (sortPairQ a b).1 ≤ (sortPairQ a b).2 := by
  unfold sortPairQ
  split
  · rename_i h; exact le_of_lt h
  · rename_i h; exact le_of_not_lt h

/-- Every interval produced by one `correlate_theta` loop body is
ordered, given an ascending `rho_extent`. -/
theorem thetaBinEntry_ordered (O : Oracles) (tr : track) (t : Option (ℚ × ℚ))
    (rhoExt : ℚ × ℚ) (b : ℚ × ℚ) (hr : rhoExt.1 ≤ rhoExt.2)
    (p q : ExtQ) (he : thetaBinEntry O tr t rhoExt b = some (p, q)) :
    ExtQ.le p q = true := by
  rcases t with _ | tt
  · simp [thetaBinEntry] at he
  · simp only [thetaBinEntry] at he
    split_ifs at he
    all_goals (try simp only [Option.some.injEq] at he)
    · injection he with h1 h2
      rw [← h1, ← h2]
      simp [ExtQ.le, hr]
    · exact le_of_sortPair_eq _ _ p q (rho_of_theta_pos_ne_nan O tr _)
        (rho_of_theta_pos_ne_nan O tr _) he
    · exact le_of_sortPair_eq _ _ p q (rho_of_theta_neg_ne_nan O tr _)
        (rho_of_theta_neg_ne_nan O tr _) he
    · exact le_of_sortPair_eq _ _ p q (rho_of_theta_neg_ne_nan O tr _)
        (rho_of_theta_neg_ne_nan O tr _) he
    · exact le_of_sortPair_eq _ _ p q (rho_of_theta_pos_ne_nan O tr _)
        (rho_of_theta_pos_ne_nan O tr _) he

/-- Every interval produced by one `correlate_r` loop body is ordered. -/
theorem rBinEntry_ordered (O : Oracles) (tr : track) (t : ℚ × ℚ) (pos : Bool)
    (b : ℚ × ℚ) (p q : ℚ) (he : rBinEntry O tr t pos b = some (p, q)) : p ≤ q := by
  simp only [rBinEntry] at he
  split_ifs at he
  all_goals (try simp only [Option.some.injEq] at he)
  · have h2 := sortPairQ_ordered (tr.rho_of_r_neg O (max b.1 t.1))
      (tr.rho_of_r_neg O (min b.2 t.2))
    rw [he] at h2
    exact h2
  · have h2 := sortPairQ_ordered (tr.rho_of_r_pos O (max b.1 t.1))
      (tr.rho_of_r_pos O (min b.2 t.2))
    rw [he] at h2
    exact h2

/-- Every interval produced by one `correlate_phi` loop body whose
endpoints are both non-NaN is ordered, given an ascending `rho_extent`. -/
theorem phiBinEntry_ordered (O : Oracles) (tr : track) (t : ℚ × ℚ)
    (rhoExt : ℚ × ℚ) (b : ℚ × ℚ) (hr : rhoExt.1 ≤ rhoExt.2)
    (p q : ExtQ) (he : phiBinEntry O tr t rhoExt b = some (p, q))
    (hp : p ≠ ExtQ.nan) (hq : q ≠ ExtQ.nan) : ExtQ.le p q = true := by
  simp only [phiBinEntry] at he
  split_ifs at he
  all_goals (try simp only [Option.some.injEq] at he)
  all_goals first
    | (injection he with h1 h2
       rw [← h1, ← h2]
       simp [ExtQ.le, hr])
    | exact le_of_sortPair_eq_of_ne_nan _ _ p q hp hq he

/-- C9 (amended): every non-`None` entry of `correlate_theta` and of
`correlate_r` is an ordered pair with low ≤ high (given an ascending
`rho_extent`), and absence of overlap is always the distinguished `None`;
for `correlate_phi` the same holds for every entry neither of whose
endpoints is the NaN produced by a 0/0 azimuth solve (the original claim
fails there, see `correlate_phi_nan_counterexample`). -/
theorem correlator_interval_order (O : Oracles) (tr : track) (edges : List ℚ)
    (t : Option (ℚ × ℚ)) (tphi tra : ℚ × ℚ) (pos : Bool) (rhoExt : ℚ × ℚ)
    (hr : rhoExt.1 ≤ rhoExt.2) :
    (∀ e ∈ correlate_theta O tr edges t rhoExt, ∀ p q : ExtQ,
      e = some (p, q) → ExtQ.le p q = true) ∧
    (∀ e ∈ correlate_r O tr edges tra pos, ∀ p q : ℚ,
      e = some (p, q) → p ≤ q) ∧
    (∀ e ∈ correlate_phi O tr edges tphi rhoExt, ∀ p q : ExtQ,
      e = some (p, q) → p ≠ ExtQ.nan → q ≠ ExtQ.nan → ExtQ.le p q = true) := by
  refine ⟨?_, ?_, ?_⟩
  · intro e hme p q he
    obtain ⟨b, _, rfl⟩ := List.mem_map.mp hme
    exact thetaBinEntry_ordered O tr t rhoExt b hr p q he
  · intro e hme p q he
    obtain ⟨b, _, rfl⟩ := List.mem_map.mp hme
    exact rBinEntry_ordered O tr tra pos b p q he
  · intro e hme p q he hp hq
    obtain ⟨b, _, rfl⟩ := List.mem_map.mp hme
    exact phiBinEntry_ordered O tr tphi rhoExt b hr p q he hp hq

/-- A track whose direction azimuth is 0 with `sin φ = 0` exactly and
`sin θ = 1`, positioned so that `y0 = 0`: the azimuth level line `φ = 0`
is then parallel to the direction and passes through the origin, making
the `rho_of_phi` solve 0/0.  (In the source this arises for
`phi = 0.0`, where `np.sin` is exact, with the query origin at the
track's own y coordinate.) -/
def trCx : track :=
  { t_v := 0, x_v := 1, y_v := 0, z_v := 5, phi := 0, theta := 2, length := 1,
    sinphi := 0, cosphi := 1, tanphi := 0, sintheta := 1, costheta := 0,
    t_o := 0, x_o := 0, y_o := 0, z_o := 0 }

/-- Oracle values for the counterexample: exact `sin 0 = 0`, `cos 0 = 1`,
and arbitrary finite values at the other queried azimuth `1/2`. -/
def OCx : Oracles :=
  { sq := fun _ => 0, sinq := fun x => if x = 0 then 0 else 1/2,
    cosq := fun x => if x = 0 then 1 else 7/8, tanq := fun _ => 0,
    acosq := fun _ => 0, atan2q := fun _ _ => 0, piQ := 0 }

/-- Counterexample to C9 as stated: `correlate_phi` on the bin `[0, 1]`
with target interval `(0, 1/2)` evaluates `rho_of_phi` at the azimuth 0,
where the solve is 0/0 (NaN); Python `sorted` leaves the NaN first, so
the returned entry is a non-`None` pair that is not ordered low ≤ high
(NaN compares false), even though the `rho_extent` `(0, 5)` is ascending. -/
theorem correlate_phi_nan_counterexample :
    correlate_phi OCx trCx [0, 1] (0, 1/2) (0, 5) =
      [some (ExtQ.nan, ExtQ.fin (-1))] ∧
    ExtQ.le ExtQ.nan (ExtQ.fin (-1)) = false := by
  constructor
  · norm_num [correlate_phi, binPairs, phiBinEntry, track.rho_of_phi, trCx, OCx,
      track.x0, track.y0, ExtQ.sortPair, ExtQ.lt]
  · rfl

/-- Witness for the amended C9 theorem, applied at a concrete input: the
single-bin polar-angle correlator output for a degenerate target is the
ordered `rho_extent` pair. -/
theorem correlator_interval_order_witness :
    ExtQ.le (ExtQ.fin 2) (ExtQ.fin 5) = true :=
  (correlator_interval_order O0 trW [0, 1] (some (1/2, 1/2)) (0, 0) (0, 0) false (2, 5)
      (by norm_num)).1
    (some (ExtQ.fin 2, ExtQ.fin 5))
    (by norm_num [correlate_theta, binPairs, thetaBinEntry])
    (ExtQ.fin 2) (ExtQ.fin 5) rfl

/-- A fold preserves any invariant its step function preserves. -/
theorem foldl_preserves {α β : Type} (P : α → Prop) (f : α → β → α) (l : List β) (a : α)
    (h0 : P a) (hstep : ∀ x b, P x → P (f x b)) : P (l.foldl f a) := by
  induction l generalizing a with
  | nil => exact h0
  | cons b rest ih => exact ih (f a b) (hstep a b h0)

/-- An IEEE comparison `A ≤ B` that holds guarantees a non-negative
finite difference (the non-finite cases all give 0). -/
theorem diff_nonneg_of_le (A B : ExtQ) (h : ExtQ.le A B = true) : 0 ≤ ExtQ.diff B A := by
  cases A <;> cases B <;> simp_all [ExtQ.le, ExtQ.diff]

/-- Incrementing one cell by a non-negative length keeps the matrix
non-negative. -/
theorem updateMat_nonneg (z : Mat) (k j m i : ℕ) (len : ℚ)
    (hz : ∀ a b c d, 0 ≤ z a b c d) (hlen : 0 ≤ len) :
    ∀ a b c d, 0 ≤ updateMat z k j m i len a b c d := by
  intro a b c d
  unfold updateMat
  split
  · have := hz a b c d; linarith
  · exact hz a b c d

/-- The innermost accumulation step preserves non-negativity: it only
ever adds `B - A` under the guard `A ≤ B`. -/
theorem accumCell_nonneg (z : Mat) (k j m i : ℕ) (r : ℚ × ℚ) (th ph : ExtQ × ExtQ)
    (hz : ∀ a b c d, 0 ≤ z a b c d) :
    ∀ a b c d, 0 ≤ accumCell z k j m i r th ph a b c d := by
  intro a b c d
  simp only [accumCell]
  split
  · exact updateMat_nonneg z k j m i _ hz (diff_nonneg_of_le _ _ (by assumption)) a b c d
  · exact hz a b c d

/-- The radius loop preserves non-negativity. -/
theorem accumR_nonneg (k m i : ℕ) (th ph : ExtQ × ExtQ) (rs : List (Option (ℚ × ℚ)))
    (z : Mat) (hz : ∀ a b c d, 0 ≤ z a b c d) :
    ∀ a b c d, 0 ≤ accumR z k m i th ph rs a b c d := by
  unfold accumR
  refine foldl_preserves (fun w => ∀ a b c d, 0 ≤ w a b c d) _ _ z hz ?_
  intro x jr hx
  rcases jr with ⟨j, _ | r⟩
  · exact hx
  · exact accumCell_nonneg x k j m i r th ph hx

/-- The polar-angle loop preserves non-negativity. -/
theorem accumTheta_nonneg (k i : ℕ) (ph : ExtQ × ExtQ)
    (ths : List (Option (ExtQ × ExtQ))) (rNegs rPoss : List (Option (ℚ × ℚ)))
    (z : Mat) (hz : ∀ a b c d, 0 ≤ z a b c d) :
    ∀ a b c d, 0 ≤ accumTheta z k i ph ths rNegs rPoss a b c d := by
  unfold accumTheta
  refine foldl_preserves (fun w => ∀ a b c d, 0 ≤ w a b c d) _ _ z hz ?_
  intro x mth hx
  rcases mth with ⟨m, _ | th⟩
  · exact hx
  · exact accumR_nonneg k m i th ph rPoss _ (accumR_nonneg k m i th ph rNegs x hx)

/-- The azimuth loop preserves non-negativity. -/
theorem accumPhi_nonneg (k : ℕ) (phs : List (Option (ExtQ × ExtQ)))
    (thNegs thPoss : List (Option (ExtQ × ExtQ))) (rNegs rPoss : List (Option (ℚ × ℚ)))
    (z : Mat) (hz : ∀ a b c d, 0 ≤ z a b c d) :
    ∀ a b c d, 0 ≤ accumPhi z k phs thNegs thPoss rNegs rPoss a b c d := by
  unfold accumPhi
  refine foldl_preserves (fun w => ∀ a b c d, 0 ≤ w a b c d) _ _ z hz ?_
  intro x iph hx
  rcases iph with ⟨i, _ | ph⟩
  · exact hx
  · exact accumTheta_nonneg k i ph thPoss rNegs rPoss _
      (accumTheta_nonneg k i ph thNegs rNegs rPoss x hx)

/-- One time-bin iteration that completes preserves non-negativity. -/
theorem timeBinStep_nonneg (O : Oracles) (tr : track) (tb : ℚ) (tsv : ExtQ)
    (rInfl thInfl : Option ℚ) (rE thE phE : List ℚ) (z zz : Mat) (k : ℕ) (tbin : ℚ × ℚ)
    (hz : ∀ a b c d, 0 ≤ z a b c d)
    (h : timeBinStep O tr tb tsv rInfl thInfl rE thE phE z k tbin = some zz) :
    ∀ a b c d, 0 ≤ zz a b c d := by
  simp only [timeBinStep] at h
  split at h
  · simp only [Option.some.injEq] at h
    subst h
    exact hz
  · split at h
    · split at h
      · simp only [Option.some.injEq] at h
        subst h
        exact accumPhi_nonneg _ _ _ _ _ _ z hz
      · exact absurd h (by simp)
    · exact absurd h (by simp)

/-- The full time-bin fold: if it completes, the result is cellwise
non-negative. -/
theorem zLoop_nonneg (O : Oracles) (tr : track) (tb : ℚ) (tsv : ExtQ)
    (rInfl thInfl : Option ℚ) (rE thE phE : List ℚ) (tbins : List (ℕ × (ℚ × ℚ)))
    (zz : Mat) (h : zLoop O tr tb tsv rInfl thInfl rE thE phE tbins = some zz) :
    ∀ a b c d, 0 ≤ zz a b c d := by
  unfold zLoop at h
  refine foldl_preserves
    (fun o : Option Mat => ∀ w, o = some w → ∀ a b c d, 0 ≤ w a b c d)
    _ tbins (some zeroMat) ?_ ?_ zz h
  · intro w hw
    injection hw with h1
    subst h1
    intro a b c d
    exact le_refl 0
  · intro x ktb hx w hw
    rcases x with _ | x
    · simp at hw
    · exact timeBinStep_nonneg O tr tb tsv rInfl thInfl rE thE phE x w ktb.1 ktb.2
        (hx x rfl) hw

/-- C2: every cell of a matrix returned by `get_z_matrix` is
non-negative — the matrix starts zero-filled and each accumulated
contribution `B - A` is added only under the guard `A ≤ B`.  (The
hypothesis `= some z` says the call completed rather than raising.) -/
theorem get_z_matrix_nonneg (O : Oracles) (hy : hypo) (Dt Dx Dy Dz : ℚ) (z : Mat)
    (h : get_z_matrix O hy Dt Dx Dy Dz = some z) (k j m i : ℕ) : 0 ≤ z k j m i := by
  simp only [get_z_matrix] at h
  exact zLoop_nonneg _ _ _ _ _ _ _ _ _ _ _ h k j m i

/-- A hypothesis object with no time bins (so the assembler completes
immediately), used to witness C2. -/
def hyW : hypo :=
  { track := trW, t_bin_edges := [], r_bin_edges := [], theta_bin_edges := [],
    phi_bin_edges := [] }

/-- Witness for C2 at the concrete hypothesis `hyW`: the call completes
with the zero matrix, and the theorem gives non-negativity of a cell. -/
theorem get_z_matrix_nonneg_witness :
    get_z_matrix O0 hyW 0 0 0 0 = some zeroMat ∧ 0 ≤ zeroMat 0 0 0 0 :=
  ⟨by simp [get_z_matrix, zLoop, binPairs, hyW],
   get_z_matrix_nonneg O0 hyW 0 0 0 0 zeroMat
     (by simp [get_z_matrix, zLoop, binPairs, hyW]) 0 0 0 0⟩

/-- A track directed exactly along the polar axis (θ = 0, so
`np.sin(0.0) = 0.0` exactly in the source) with vertex on the axis above
the origin: `x0 = y0 = 0`.  Both the numerator and the denominator of
the `ts` solve vanish. -/
def trAxis : track :=
  { t_v := 0, x_v := 0, y_v := 0, z_v := 2, phi := 0, theta := 0, length := 1,
    sinphi := 0, cosphi := 1, tanphi := 0, sintheta := 0, costheta := 1,
    t_o := 0, x_o := 0, y_o := 0, z_o := 0 }

/-- Binning for the axis-track scenario: one bin per dimension, each
covering the track's full coordinate range. -/
def hyAxis : hypo :=
  { track := trAxis, t_bin_edges := [0, 10], r_bin_edges := [0, 15],
    theta_bin_edges := [0, 4], phi_bin_edges := [0, 7] }

set_option maxHeartbeats 1000000 in
/-- C3: for the axis-aligned track `trAxis` the polar-extremum solve is
0/0 — `ts` is NaN — so both branch guards `ts <= t_extent[0]` and
`ts >= t_extent[1]` are false, and `get_z_matrix` reads the never-bound
local `theta_inflection_point`: a Python `UnboundLocalError` escapes
(result `none`), contradicting the claim that a zero denominator in the
`ts` solve never lets an exception propagate out of the engine. -/
theorem ts_zero_denominator_crash :
    (hyAxis.track.set_origin 0 0 0 0).tsDen = 0 ∧
    (hyAxis.track.set_origin 0 0 0 0).tsNum = 0 ∧
    (hyAxis.track.set_origin 0 0 0 0).ts = ExtQ.nan ∧
    get_z_matrix O0 hyAxis 0 0 0 0 = none := by
  refine ⟨?_, ?_, ?_, ?_⟩
  · norm_num [hyAxis, trAxis, track.set_origin, track.tsDen, track.x0, track.y0, track.z0]
  · norm_num [hyAxis, trAxis, track.set_origin, track.tsNum, track.x0, track.y0, track.z0]
  · norm_num [hyAxis, trAxis, track.set_origin, track.ts, track.tsNum, track.tsDen,
      track.x0, track.y0, track.z0]
  · norm_num [get_z_matrix, zLoop, binPairs, List.enum, List.enumFrom, timeBinStep,
      hyAxis, trAxis, O0,
      track.set_origin, track.extent, track.point, track.ts, track.tsNum, track.tsDen,
      track.tb, track.t0, track.x0, track.y0, track.z0, track.dt, track.c,
      ExtQ.le, cr, ctheta, cphi, sortPairQ]

/-- The axis-aligned track for the C1 scenario: θ = 0, vertex at
(0, 0, 0, 3), length 2 (so the valid time range is `[0, 20]` and the
radius range `[3, 5]`), fully contained in the binning `hyAx1`. -/
def trAx1 : track :=
  { t_v := 0, x_v := 0, y_v := 0, z_v := 3, phi := 0, theta := 0, length := 2,
    sinphi := 0, cosphi := 1, tanphi := 0, sintheta := 0, costheta := 1,
    t_o := 0, x_o := 0, y_o := 0, z_o := 0 }

/-- Binning containing the whole of `trAx1` in every dimension: time
`[0, 20]` ⊇ `[0, 20]`, radius `[0, 20]` ⊇ `[3, 5]`, polar angle
`[0, 3]` ∋ 0 (the track sits on the axis, arccos(1) = 0), azimuth
`[0, 8]` ∋ 0 (atan2(0, 0) = 0). -/
def hyAx1 : hypo :=
  { track := trAx1, t_bin_edges := [0, 20], r_bin_edges := [0, 20],
    theta_bin_edges := [0, 3], phi_bin_edges := [0, 8] }

set_option maxHeartbeats 1000000 in
/-- C1: for the axis track `trAx1`, fully contained in the union of the
bins of `hyAx1` in every dimension, the (single) time bin has the
non-empty clipped extent `(0, 20)` — so the claim demands the time-bin
cell sum `c * 20 = 2` — but `get_z_matrix` raises (0/0 in the `ts`
solve, then `UnboundLocalError` on `theta_inflection_point`) and
returns no matrix at all. -/
theorem conservation_axis_crash :
    (hyAx1.track.set_origin 0 0 0 0).extent 0 20 = some (0, 20) ∧
    get_z_matrix O0 hyAx1 0 0 0 0 = none := by
  constructor
  · norm_num [hyAx1, trAx1, track.set_origin, track.extent, track.t0, track.dt, track.c]
  · norm_num [get_z_matrix, zLoop, binPairs, List.enum, List.enumFrom, timeBinStep,
      hyAx1, trAx1, O0,
      track.set_origin, track.extent, track.point, track.ts, track.tsNum, track.tsDen,
      track.tb, track.t0, track.x0, track.y0, track.z0, track.dt, track.c,
      ExtQ.le, cr, ctheta, cphi, sortPairQ]
